import Mathlib

/-!
Verification development for the `bevy_turborand` crate: a shallow embedding
of the crate's generator wrappers (`GlobalRng`, the `RngPlugin`, and the
delegation facade) together with a model of the external `turborand`
generator core, and proofs of the specification's determinism, tier,
fork-divergence, range, sampling and frame-effect properties.
-/

namespace BevyTurborand

/-- The modulus of 64-bit machine words. -/
def U64 : Nat := 2 ^ 64

/-- Additive state increment of the modelled generator (an odd 64-bit
constant, in the style of WyRand's increment). -/
def STEP : Nat := 0xa0761d6478bd642f

/-- Output-mixing multiplier of the modelled generator (an odd 64-bit
constant). -/
def MULT : Nat := 0xe7037ed1a0b428db

/-- Output-mixing function of the modelled generator: an affine bijection
of the 64-bit state space. -/
def mix (s : Nat) : Nat := (s * MULT + STEP) % U64

/-- Modelled from the spec: the `GeneratorCore` (`turborand::Rng`, an
external collaborator of this crate, spec section 4.1): opaque 64-bit state
with a pure, deterministic transition function producing the next output
and the next state. -/
structure Rng where
  state : Nat
deriving Repr, DecidableEq

/-- Modelled from the spec: `Rng::with_seed(seed)` - explicit seed, fully
reproducible; the state is a deterministic function of the 64-bit seed
alone. -/
def Rng.withSeed (seed : Nat) : Rng := ⟨seed % U64⟩

/-- Modelled from the spec: `Rng::new()` - randomised seed drawn from the
platform entropy source; the entropy input is made explicit as a
parameter. -/
def Rng.new (entropy : Nat) : Rng := ⟨entropy % U64⟩

/-- Modelled from the spec: the core draw primitive - advances the internal
state and returns a 64-bit output, a pure state transition. -/
def Rng.nextU64 (r : Rng) : Nat × Rng :=
  let s := (r.state + STEP) % U64
  (mix s, ⟨s⟩)

/-- Modelled from the spec: `fork()` consumes entropy from `self` (mutating
it) and returns a brand-new instance whose initial state is a deterministic
function of the parent's pre-fork state (`Rng::with_seed(self.gen_u64())`).
Returns `(child, advanced parent)`. -/
def Rng.fork (r : Rng) : Rng × Rng :=
  let o := r.nextU64
  (Rng.withSeed o.1, o.2)

/-- Modelled from the spec: ranged draw `u32(lo..=hi)` - rejects an empty
range `lo > hi` as a caller-visible usage error (`none`), otherwise draws a
value mapped into `[lo, hi]`. -/
def Rng.u32 (lo hi : Nat) (r : Rng) : Option (Nat × Rng) :=
  if lo ≤ hi then
    let o := r.nextU64
    some (lo + o.1 % (hi - lo + 1), o.2)
  else none

/-- Modelled from the spec: `sample(list)` - `None` on empty input,
otherwise one element of the list selected by a draw. -/
def Rng.sample {α : Type} (l : List α) (r : Rng) : Option α × Rng :=
  match l with
  | [] => (none, r)
  | _ :: _ =>
    let o := r.nextU64
    (l.get? (o.1 % l.length), o.2)

/-- Index selection by cumulative weight: walks the weight list, consuming
the target until it falls inside an element's weight band. -/
def pickIndex : List Nat → Nat → Nat
  | [], _ => 0
  | w :: ws, t => if t < w then 0 else pickIndex ws (t - w) + 1

/-- Modelled from the spec: `weighted_sample_mut(list, weight_fn)` -
selection probability proportional to weight; returns the selected index
(`none` when the total weight is zero). Weights are modelled as naturals
since the selection protocol, not float arithmetic, is what the claims
concern. -/
def Rng.weightedSampleMut {α : Type} (l : List α) (w : α → Nat) (r : Rng) :
    Option Nat × Rng :=
  let total := (l.map w).sum
  if total = 0 then (none, r)
  else
    let o := r.nextU64
    (some (pickIndex (l.map w) (o.1 % total)), o.2)

/-- `GlobalRng` (src/global/rng.rs line 9): a newtype wrapper around a
single inner `Rng`, used as the process-wide root generator resource. -/
structure GlobalRng where
  rng : Rng
deriving Repr, DecidableEq

/-- `GlobalRng::new` (src/global/rng.rs lines 17-19): wraps `Rng::new()`;
the platform entropy input is made explicit. -/
def GlobalRng.new (entropy : Nat) : GlobalRng := ⟨Rng.new entropy⟩

/-- `GlobalRng::with_seed` (src/global/rng.rs lines 24-26): wraps
`Rng::with_seed(seed)`. -/
def GlobalRng.withSeed (seed : Nat) : GlobalRng := ⟨Rng.withSeed seed⟩

/-- `DelegatedRng::get_mut` for `GlobalRng` (src/global/rng.rs lines 52-54):
returns the inner `Rng`. -/
def GlobalRng.getMut (g : GlobalRng) : Rng := g.rng

/-- `AsMut<Rng> for GlobalRng` (src/global/rng.rs lines 78-82): defined as
`self.get_mut()`. -/
def GlobalRng.asMut (g : GlobalRng) : Rng := g.getMut

/-- Modelled from the spec: the `DelegatedRng` default methods (the trait
lives in the crate's `traits.rs`, not among the provided sources) - each
typed draw method forwards to the inner core obtained from `get_mut`, in
state-passing form: run the core operation on the inner `Rng` and rewrap
the advanced core. -/
def GlobalRng.delegate {α : Type} (f : Rng → α × Rng) (g : GlobalRng) :
    α × GlobalRng :=
  let o := f g.getMut
  (o.1, ⟨o.2⟩)

/-- `GlobalRng::weighted_sample_mut` (src/global/rng.rs lines 57-65):
directly calls `self.0.weighted_sample_mut(list, weight_sampler)`. -/
def GlobalRng.weightedSampleMut {α : Type} (l : List α) (w : α → Nat)
    (g : GlobalRng) : Option Nat × GlobalRng :=
  let o := Rng.weightedSampleMut l w g.rng
  (o.1, ⟨o.2⟩)

/-- `GlobalRng::u32` via delegation: forwards the ranged draw to the inner
core. -/
def GlobalRng.u32 (lo hi : Nat) (g : GlobalRng) : Option (Nat × GlobalRng) :=
  (Rng.u32 lo hi g.rng).map (fun p => (p.1, ⟨p.2⟩))

/-- A fixed draw-call vocabulary for determinism statements: raw 64-bit
draws, ranged draws, and list sampling. -/
inductive DrawCall where
  | u64Draw : DrawCall
  | u32Draw (lo hi : Nat) : DrawCall
  | sampleDraw (l : List Nat) : DrawCall
deriving Repr, DecidableEq

/-- Run a single draw call against a `GlobalRng` (a rejected ranged draw
reports `none` and leaves the state unchanged). -/
def GlobalRng.runCall (g : GlobalRng) : DrawCall → Option Nat × GlobalRng
  | .u64Draw =>
    let o := GlobalRng.delegate Rng.nextU64 g
    (some o.1, o.2)
  | .u32Draw lo hi =>
    match GlobalRng.u32 lo hi g with
    | some p => (some p.1, p.2)
    | none => (none, g)
  | .sampleDraw l => GlobalRng.delegate (Rng.sample l) g

/-- Run a sequence of draw calls, collecting the drawn values. -/
def GlobalRng.runCalls (g : GlobalRng) : List DrawCall → List (Option Nat) × GlobalRng
  | [] => ([], g)
  | c :: cs =>
    let o := g.runCall c
    let rest := o.2.runCalls cs
    (o.1 :: rest.1, rest.2)

/-- Construction of the root generator for one run: an explicit seed uses
`GlobalRng::with_seed` and ignores the run's ambient entropy; no seed uses
the randomised `GlobalRng::new` (this is exactly
`self.rng.map_or_else(GlobalRng::new, GlobalRng::with_seed)` from
src/lib.rs line 269). -/
def GlobalRng.construct (seed : Option Nat) (entropy : Nat) : GlobalRng :=
  match seed with
  | some s => GlobalRng.withSeed s
  | none => GlobalRng.new entropy

/-- Modelled from the spec: the `SecureRng` core (ChaCha8, external
`turborand` collaborator) - opaque state keyed by a 40-byte seed. -/
structure SecureRng where
  state : List Nat
deriving Repr, DecidableEq

/-- Modelled from the spec: `SecureRng::with_seed([u8; 40])`. -/
def SecureRng.withSeed (seed : List Nat) : SecureRng := ⟨seed.map (· % 256)⟩

/-- Modelled from the spec: `SecureRng::new()` with an explicit platform
entropy input. -/
def SecureRng.new (entropy : List Nat) : SecureRng := ⟨entropy.map (· % 256)⟩

/-- Modelled from the spec: `GlobalSecureRng` (the crate's `global/secure.rs`
is not among the provided sources) - newtype over a `SecureRng`, the
cryptographic-tier root resource. -/
structure GlobalSecureRng where
  rng : SecureRng
deriving Repr, DecidableEq

/-- Modelled from the spec: `GlobalSecureRng::with_seed`. -/
def GlobalSecureRng.withSeed (seed : List Nat) : GlobalSecureRng :=
  ⟨SecureRng.withSeed seed⟩

/-- Modelled from the spec: `GlobalSecureRng::new` with explicit entropy. -/
def GlobalSecureRng.new (entropy : List Nat) : GlobalSecureRng :=
  ⟨SecureRng.new entropy⟩

/-- `RngPlugin` (src/lib.rs lines 213-218): construction-time seed options
for the standard (`rng: Option<u64>`) and cryptographic
(`secure: Option<[u8; 40]>`) root generators. -/
structure RngPlugin where
  rng : Option Nat
  secure : Option (List Nat)
deriving Repr, DecidableEq

/-- `RngPlugin::new` (src/lib.rs lines 226-233): no seeds provided, so the
root generators get randomised seeds. -/
def RngPlugin.new : RngPlugin := ⟨none, none⟩

/-- `RngPlugin::with_rng_seed` (src/lib.rs lines 239-242): sets the standard
seed option. -/
def RngPlugin.withRngSeed (p : RngPlugin) (seed : Nat) : RngPlugin :=
  { p with rng := some seed }

/-- `RngPlugin::with_secure_seed` (src/lib.rs lines 248-251): sets the
cryptographic seed option. -/
def RngPlugin.withSecureSeed (p : RngPlugin) (seed : List Nat) : RngPlugin :=
  { p with secure := some seed }

/-- Modelled from the spec: the host's resource mechanism (a Bevy `App`) -
one slot per root-generator resource plus the rest of the app's state,
which the plugin never touches. -/
structure App where
  globalRng : Option GlobalRng
  globalSecureRng : Option GlobalSecureRng
  otherResources : List (String × Nat)
deriving Repr, DecidableEq

/-- Modelled from the spec: `App::insert_resource` for `GlobalRng` -
replaces any value already in the slot. -/
def App.insertGlobalRng (a : App) (g : GlobalRng) : App :=
  { a with globalRng := some g }

/-- Modelled from the spec: `App::insert_resource` for `GlobalSecureRng`. -/
def App.insertGlobalSecureRng (a : App) (g : GlobalSecureRng) : App :=
  { a with globalSecureRng := some g }

/-- Construction of the cryptographic root generator for one run, mirroring
`self.secure.map_or_else(GlobalSecureRng::new, GlobalSecureRng::with_seed)`
from src/lib.rs lines 271-274. -/
def GlobalSecureRng.construct (seed : Option (List Nat)) (entropy : List Nat) :
    GlobalSecureRng :=
  match seed with
  | some s => GlobalSecureRng.withSeed s
  | none => GlobalSecureRng.new entropy

/-- `impl Plugin for RngPlugin` / `build` (src/lib.rs lines 266-275):
inserts `self.rng.map_or_else(GlobalRng::new, GlobalRng::with_seed)` and
`self.secure.map_or_else(GlobalSecureRng::new, GlobalSecureRng::with_seed)`
as resources; the two platform entropy inputs are explicit parameters. -/
def RngPlugin.build (p : RngPlugin) (entropy : Nat) (secureEntropy : List Nat)
    (app : App) : App :=
  (app.insertGlobalRng (GlobalRng.construct p.rng entropy)).insertGlobalSecureRng
    (GlobalSecureRng.construct p.secure secureEntropy)

/-- Generator quality tiers: the ordered enumeration
{Standard, Cryptographic}. -/
inductive Tier where
  | standard : Tier
  | cryptographic : Tier
deriving Repr, DecidableEq

/-- Numeric rank of a tier; the tier ordering is the order of ranks. -/
def Tier.rank : Tier → Nat
  | .standard => 0
  | .cryptographic => 1

/-- Modelled from the spec: the exposed fork/seed operations of the crate's
capability set (crate docs, src/lib.rs lines 50-63: `GlobalSecureRng` and
`SecureRngComponent` can seed both `SecureRngComponent` and `RngComponent`;
`GlobalRng` and `RngComponent` can seed only `RngComponent` - no operation
seeds a `SecureRngComponent` from a standard-tier source, as those types do
not implement `SecureCore`). -/
inductive SeedOp where
  | rngFromGlobalRng : SeedOp
  | rngFromRngComponent : SeedOp
  | rngFromGlobalSecureRng : SeedOp
  | rngFromSecureRngComponent : SeedOp
  | secureFromGlobalSecureRng : SeedOp
  | secureFromSecureRngComponent : SeedOp
deriving Repr, DecidableEq

/-- Tier of the source generator of a seed operation. -/
def SeedOp.srcTier : SeedOp → Tier
  | .rngFromGlobalRng => .standard
  | .rngFromRngComponent => .standard
  | .rngFromGlobalSecureRng => .cryptographic
  | .rngFromSecureRngComponent => .cryptographic
  | .secureFromGlobalSecureRng => .cryptographic
  | .secureFromSecureRngComponent => .cryptographic

/-- Tier of the generator a seed operation constructs. -/
def SeedOp.dstTier : SeedOp → Tier
  | .rngFromGlobalRng => .standard
  | .rngFromRngComponent => .standard
  | .rngFromGlobalSecureRng => .standard
  | .rngFromSecureRngComponent => .standard
  | .secureFromGlobalSecureRng => .cryptographic
  | .secureFromSecureRngComponent => .cryptographic

/-- Run a derivation chain: starting from a generator of tier `t`, apply
each seed operation in turn; an operation applies only when its source tier
matches the current generator's tier. -/
def runChain (t : Tier) : List SeedOp → Option Tier
  | [] => some t
  | op :: ops => if op.srcTier = t then runChain op.dstTier ops else none

/-- The word modulus is positive. -/
theorem U64_pos : 0 < U64 := by norm_num [U64]

/-- The state increment is positive. -/
theorem STEP_pos : 0 < STEP := by norm_num [STEP]

/-- The state increment fits in a word. -/
theorem STEP_lt : STEP < U64 := by norm_num [STEP, U64]

/-- The mixing multiplier is odd. -/
theorem MULT_odd : MULT % 2 = 1 := by norm_num [MULT]

/-- The word modulus and the mixing multiplier are coprime. -/
theorem gcd_U64_MULT : Nat.gcd U64 MULT = 1 :=
  Nat.Coprime.pow_left 64 (Nat.coprime_two_left.mpr (Nat.odd_iff.mpr MULT_odd))

/-- Mixed outputs fit in a word. -/
theorem mix_lt (s : Nat) : mix s < U64 := Nat.mod_lt _ U64_pos

/-- The mixing function is injective on words. -/
theorem mix_inj {a b : Nat} (ha : a < U64) (hb : b < U64)
    (h : mix a = mix b) : a = b := by
  have h1 : a * MULT + STEP ≡ b * MULT + STEP [MOD U64] := h
  have h2 : a * MULT ≡ b * MULT [MOD U64] :=
    Nat.ModEq.add_right_cancel' STEP h1
  have h3 : a ≡ b [MOD U64] :=
    Nat.ModEq.cancel_right_of_coprime gcd_U64_MULT h2
  have h4 : a % U64 = b % U64 := h3
  rwa [Nat.mod_eq_of_lt ha, Nat.mod_eq_of_lt hb] at h4

/-- Advancing the state by the increment always changes it. -/
theorem step_mod_ne (s : Nat) : (s + STEP) % U64 ≠ s := by
  intro h
  rcases Nat.lt_or_ge s U64 with hs | hs
  · have h1 : s ≡ s + STEP [MOD U64] := by
      have : (s + STEP) % U64 = s % U64 := by rw [h, Nat.mod_eq_of_lt hs]
      exact this.symm
    have h2 : U64 ∣ s + STEP - s :=
      (Nat.modEq_iff_dvd' (Nat.le_add_right s STEP)).mp h1
    rw [Nat.add_sub_cancel_left] at h2
    exact absurd (Nat.le_of_dvd STEP_pos h2) (Nat.not_le.mpr STEP_lt)
  · exact absurd h (Nat.ne_of_lt (Nat.lt_of_lt_of_le (Nat.mod_lt _ U64_pos) hs))

/-- Advancing two distinct word states by the increment keeps them
distinct. -/
theorem step_mod_inj {a b : Nat} (ha : a < U64) (hb : b < U64)
    (h : (a + STEP) % U64 = (b + STEP) % U64) : a = b := by
  have h1 : a + STEP ≡ b + STEP [MOD U64] := h
  have h2 : a ≡ b [MOD U64] := Nat.ModEq.add_right_cancel' STEP h1
  have h3 : a % U64 = b % U64 := h2
  rwa [Nat.mod_eq_of_lt ha, Nat.mod_eq_of_lt hb] at h3

/-- The state of a fork's child, unfolded: the mixed advanced parent
state. -/
theorem fork_child_state (r : Rng) :
    r.fork.1.state = mix ((r.state + STEP) % U64) := by
  simp [Rng.fork, Rng.nextU64, Rng.withSeed, Nat.mod_eq_of_lt (mix_lt _)]

/-- The state of the parent after a fork, unfolded. -/
theorem fork_parent_state (r : Rng) :
    r.fork.2.state = (r.state + STEP) % U64 := rfl

/-- The first draw of a generator, unfolded. -/
theorem nextU64_fst (r : Rng) :
    r.nextU64.1 = mix ((r.state + STEP) % U64) := rfl

/-- Every seed operation's destination tier is at most its source tier. -/
theorem seedOp_dst_le_src (op : SeedOp) : op.dstTier.rank ≤ op.srcTier.rank := by
  cases op <;> decide

/-- C1: for every 64-bit seed `S` and every fixed sequence of draw calls
`C`, two root generators each constructed by `GlobalRng::with_seed(S)` and
run through `C` produce identical sequences of drawn values - construction
from an explicit seed ignores the run's ambient entropy, so it is fully
deterministic across runs. -/
theorem with_seed_determinism (S : Nat) (C : List DrawCall) (e₁ e₂ : Nat) :
    (GlobalRng.construct (some S) e₁).runCalls C =
      (GlobalRng.construct (some S) e₂).runCalls C := rfl

/-- C2: building an `RngPlugin` into an `App` inserts a `GlobalRng`
resource equal to `GlobalRng::with_seed(s)` when the plugin's standard
seed option is `Some(s)`, and equal to the randomised-seed
`GlobalRng::new()` when it is `None` - which is the default produced by
`RngPlugin::new`. -/
theorem build_seeds_global_rng (p : RngPlugin) (e : Nat) (se : List Nat)
    (app : App) :
    (∀ s, p.rng = some s →
      (p.build e se app).globalRng = some (GlobalRng.withSeed s)) ∧
    (p.rng = none → (p.build e se app).globalRng = some (GlobalRng.new e)) ∧
    RngPlugin.new.rng = none := by
  refine ⟨?_, ?_, rfl⟩
  · intro s hs
    simp [RngPlugin.build, App.insertGlobalRng, App.insertGlobalSecureRng,
      GlobalRng.construct, hs]
  · intro hs
    simp [RngPlugin.build, App.insertGlobalRng, App.insertGlobalSecureRng,
      GlobalRng.construct, hs]

/-- Witness for C2: a concretely seeded plugin puts exactly
`GlobalRng.withSeed 42` into the app. -/
theorem build_seeds_global_rng_witness :
    (RngPlugin.new.withRngSeed 42).rng = some 42 ∧
    ((RngPlugin.new.withRngSeed 42).build 0 [] (App.mk none none [])).globalRng
      = some (GlobalRng.withSeed 42) :=
  ⟨rfl, (build_seeds_global_rng (RngPlugin.new.withRngSeed 42) 0 []
    (App.mk none none [])).1 42 rfl⟩

/-- C3: every exposed fork/seed operation produces a generator of tier at
most its source's tier, no operation constructs a cryptographic-tier
generator from a standard-tier source, and along any derivation chain the
tier never increases. -/
theorem tier_monotonicity :
    (∀ op : SeedOp, op.dstTier.rank ≤ op.srcTier.rank) ∧
    (∀ op : SeedOp, op.dstTier = Tier.cryptographic →
      op.srcTier = Tier.cryptographic) ∧
    ∀ (t : Tier) (ops : List SeedOp) (u : Tier),
      runChain t ops = some u → u.rank ≤ t.rank := by
  refine ⟨seedOp_dst_le_src, by intro op h; cases op <;> revert h <;> decide, ?_⟩
  intro t ops
  induction ops generalizing t with
  | nil =>
    intro u h
    simp only [runChain, Option.some.injEq] at h
    exact h ▸ Nat.le_refl _
  | cons op ops ih =>
    intro u h
    by_cases hc : op.srcTier = t
    · simp only [runChain, if_pos hc] at h
      exact Nat.le_trans (ih op.dstTier u h) (hc ▸ seedOp_dst_le_src op)
    · simp only [runChain, if_neg hc] at h
      exact absurd h (by simp)

/-- Witness for C3: a transitive derivation chain from the cryptographic
root down to a standard component runs to completion and lands at a tier of
rank at most the root's. -/
theorem tier_monotonicity_witness :
    runChain Tier.cryptographic
      [SeedOp.secureFromSecureRngComponent, SeedOp.rngFromSecureRngComponent,
        SeedOp.rngFromRngComponent] = some Tier.standard ∧
    Tier.rank Tier.standard ≤ Tier.rank Tier.cryptographic :=
  ⟨by decide, tier_monotonicity.2.2 Tier.cryptographic
    [SeedOp.secureFromSecureRngComponent, SeedOp.rngFromSecureRngComponent,
      SeedOp.rngFromRngComponent] Tier.standard (by decide)⟩

/-- C4: forking the same parent twice in immediate succession mutates the
parent each time and yields two children with distinct states, whose first
draws also differ from each other. -/
theorem fork_twice_divergence (p : Rng) :
    p.fork.2 ≠ p ∧
    p.fork.2.fork.2 ≠ p.fork.2 ∧
    p.fork.1 ≠ p.fork.2.fork.1 ∧
    p.fork.1.nextU64.1 ≠ p.fork.2.fork.1.nextU64.1 := by
  have hA : (p.state + STEP) % U64 < U64 := Nat.mod_lt _ U64_pos
  have hB : ((p.state + STEP) % U64 + STEP) % U64 < U64 := Nat.mod_lt _ U64_pos
  have hAB : (p.state + STEP) % U64 ≠ ((p.state + STEP) % U64 + STEP) % U64 :=
    fun h => step_mod_ne _ h.symm
  have hc1 : p.fork.1.state = mix ((p.state + STEP) % U64) := fork_child_state p
  have hc2 : p.fork.2.fork.1.state =
      mix (((p.state + STEP) % U64 + STEP) % U64) := by
    rw [fork_child_state, fork_parent_state]
  refine ⟨?_, ?_, ?_, ?_⟩
  · intro h
    exact step_mod_ne p.state (congrArg Rng.state h)
  · intro h
    have h2 := congrArg Rng.state h
    rw [fork_parent_state, fork_parent_state] at h2
    exact step_mod_ne _ h2
  · intro h
    have h2 := congrArg Rng.state h
    rw [hc1, hc2] at h2
    exact hAB (mix_inj hA hB h2)
  · intro h
    rw [nextU64_fst, nextU64_fst, hc1, hc2] at h
    have h1 := mix_inj (Nat.mod_lt _ U64_pos) (Nat.mod_lt _ U64_pos) h
    have h2 := step_mod_inj (mix_lt _) (mix_lt _) h1
    exact hAB (mix_inj hA hB h2)

/-- C5: every delegated draw operation on `GlobalRng` forwards to the
single inner `Rng` it wraps - the delegated call returns the same value
and leaves the wrapper's inner state equal to the state the direct call
leaves on the inner core; `get_mut` and `AsMut::as_mut` both expose that
same inner core. -/
theorem global_rng_delegation (g : GlobalRng) (f : Rng → Nat × Rng)
    (l : List Nat) (w : Nat → Nat) (lo hi : Nat) :
    ((GlobalRng.delegate f g).1 = (f g.rng).1 ∧
      (GlobalRng.delegate f g).2.rng = (f g.rng).2) ∧
    ((GlobalRng.weightedSampleMut l w g).1 =
        (Rng.weightedSampleMut l w g.rng).1 ∧
      (GlobalRng.weightedSampleMut l w g).2.rng =
        (Rng.weightedSampleMut l w g.rng).2) ∧
    ((GlobalRng.u32 lo hi g).map (fun q => q.1) =
        (Rng.u32 lo hi g.rng).map (fun q => q.1) ∧
      (GlobalRng.u32 lo hi g).map (fun q => q.2.rng) =
        (Rng.u32 lo hi g.rng).map (fun q => q.2)) ∧
    GlobalRng.asMut g = g.rng ∧ GlobalRng.getMut g = g.rng := by
  refine ⟨⟨rfl, rfl⟩, ⟨rfl, rfl⟩, ⟨?_, ?_⟩, rfl, rfl⟩ <;>
    (cases hu : Rng.u32 lo hi g.rng <;> simp [GlobalRng.u32, hu])

/-- C6: for `lo ≤ hi` every draw of `u32(lo..=hi)` lands in `[lo, hi]`
inclusive, while `lo > hi` is rejected as a caller-visible usage error
rather than silently clamped or wrapped. -/
theorem u32_range_correctness (lo hi : Nat) (r : Rng) :
    (lo ≤ hi → ∃ v r₂, Rng.u32 lo hi r = some (v, r₂) ∧ lo ≤ v ∧ v ≤ hi) ∧
    (hi < lo → Rng.u32 lo hi r = none) := by
  constructor
  · intro h
    refine ⟨lo + r.nextU64.1 % (hi - lo + 1), r.nextU64.2, ?_,
      Nat.le_add_right _ _, ?_⟩
    · simp [Rng.u32, h]
    · have hx : r.nextU64.1 % (hi - lo + 1) < hi - lo + 1 :=
        Nat.mod_lt _ (Nat.succ_pos _)
      omega
  · intro h
    simp [Rng.u32, Nat.not_le.mpr h]

/-- Witness for C6: a concrete in-range draw over `1..=6` and a concrete
rejection of the empty range `9..=1`. -/
theorem u32_range_correctness_witness :
    ((1 : Nat) ≤ 6 ∧
      ∃ v r₂, Rng.u32 1 6 (Rng.withSeed 42) = some (v, r₂) ∧ 1 ≤ v ∧ v ≤ 6) ∧
    ((1 : Nat) < 9 ∧ Rng.u32 9 1 (Rng.withSeed 42) = none) :=
  ⟨⟨by decide, (u32_range_correctness 1 6 (Rng.withSeed 42)).1 (by decide)⟩,
    ⟨by decide, (u32_range_correctness 9 1 (Rng.withSeed 42)).2 (by decide)⟩⟩

/-- C7: `sample(list)` returns `none` exactly on the empty list, and on a
non-empty list it returns `some` of an element of the list, never a
fabricated or default value. -/
theorem sample_option_contract {α : Type} (l : List α) (r : Rng) :
    ((Rng.sample l r).1 = none ↔ l = []) ∧
    ∀ x, (Rng.sample l r).1 = some x → x ∈ l := by
  cases l with
  | nil => exact ⟨by simp [Rng.sample], by simp [Rng.sample]⟩
  | cons a as =>
    constructor
    · constructor
      · intro h
        exfalso
        have hlt : r.nextU64.1 % (a :: as).length < (a :: as).length :=
          Nat.mod_lt _ (by simp)
        simp only [Rng.sample] at h
        rw [List.get?_eq_get hlt] at h
        exact Option.noConfusion h
      · intro h
        exact absurd h (by simp)
    · intro x h
      simp only [Rng.sample] at h
      exact List.get?_mem h

/-- Witness for C7: sampling a concrete non-empty list yields one of its
elements. -/
theorem sample_option_contract_witness :
    (Rng.sample ([7, 7, 7] : List Nat) (Rng.withSeed 0)).1 = some 7 ∧
    (7 : Nat) ∈ ([7, 7, 7] : List Nat) :=
  ⟨by decide,
    (sample_option_contract ([7, 7, 7] : List Nat) (Rng.withSeed 0)).2 7
      (by decide)⟩

/-- C8: `with_rng_seed(s)` sets only the standard-seed option to `Some(s)`
and leaves the secure-seed option unchanged; symmetrically,
`with_secure_seed(b)` sets only the secure-seed option to `Some(b)` and
leaves the standard-seed option unchanged. -/
theorem plugin_builder_frame (p : RngPlugin) (s : Nat) (b : List Nat) :
    (p.withRngSeed s).rng = some s ∧
    (p.withRngSeed s).secure = p.secure ∧
    (p.withSecureSeed b).secure = some b ∧
    (p.withSecureSeed b).rng = p.rng :=
  ⟨rfl, rfl, rfl, rfl⟩

/-- Counterexample to C10 as stated: building the default plugin into an
empty app modifies more than the `GlobalRng` slot - it also inserts a
`GlobalSecureRng` resource. -/
theorem build_modifies_secure_slot :
    (RngPlugin.new.build 0 [] (App.mk none none [])).globalSecureRng ≠
      (App.mk none none []).globalSecureRng := by decide

/-- C10 (amended): `build` unconditionally inserts the `GlobalRng` and
`GlobalSecureRng` resources, replacing whatever was in those two slots,
and modifies nothing else in the app; building twice re-creates rather
than preserves the existing root generators. -/
theorem build_replaces_global_rng (p : RngPlugin) (e : Nat) (se : List Nat)
    (app : App) :
    (p.build e se app).globalRng = some (GlobalRng.construct p.rng e) ∧
    (p.build e se app).globalSecureRng =
      some (GlobalSecureRng.construct p.secure se) ∧
    (p.build e se app).otherResources = app.otherResources ∧
    ∀ (q : RngPlugin) (e₂ : Nat) (se₂ : List Nat),
      (p.build e se (q.build e₂ se₂ app)).globalRng =
          some (GlobalRng.construct p.rng e) ∧
        (p.build e se (q.build e₂ se₂ app)).globalSecureRng =
          some (GlobalSecureRng.construct p.secure se) :=
  ⟨rfl, rfl, rfl, fun _ _ _ => ⟨rfl, rfl⟩⟩

end BevyTurborand
